import Mathlib

/-!
Shallow embedding of the Solana bridge program
(src/solana-bridge/programs/solana-bridge/src/lib.rs).

The program is an Anchor program.  Its persistent state is the `BridgeState`
account (owner pubkey, u64 nonce, paused flag, `Vec<u64>` of processed
nonces).  The five instructions `initialize`, `lock`, `mint`, `burn`,
`pause`, `unpause` are embedded as pure functions on that state.

Modelling decisions, each justified by the source or the platform:
* `Pubkey` is modelled as `Nat` (only equality of keys is used).
* `u64` fields are modelled as `Nat`; wherever a u64 bound matters it is
  stated explicitly against `U64LIMIT = 2^64`.
* The SPL-token CPI calls (`token::transfer`, `token::mint_to`,
  `token::burn`) are external collaborators; each instruction takes the
  outcome of its single CPI call as an `Except Nat Unit` argument
  (`Nat` standing for an opaque adapter error code) and propagates the
  error exactly as the Rust `?` operator does.
* `Clock::get()?.unix_timestamp` (used only to fill the `LockEvent`
  timestamp) is modelled as an `Int` argument.
* An Anchor instruction that returns `Err` aborts the whole transaction,
  so every account mutation is rolled back; accordingly an instruction
  returns `Except BridgeErr (BridgeState × Event)` and an error result
  leaves the caller's state untouched.  In the Rust bodies no state
  mutation textually precedes a fallible call, so this is faithful even
  without the rollback argument.
-/

namespace SolanaBridge

/-- Pubkeys are only compared for equality; model them as `Nat`. -/
abbrev Pubkey := Nat

/-- One more than the largest `u64` value. -/
def U64LIMIT : Nat := 2 ^ 64

/-- The `BridgeState` account (lib.rs lines 411-419):
`owner: Pubkey`, `nonce: u64`, `paused: bool`,
`processed_nonces: Vec<u64>` with `#[max_len(10000)]`.  The `max_len`
attribute does not bound the `Vec` value itself; it fixes the account's
allocated size (`space = 8 + BridgeState::INIT_SPACE`, lib.rs line 280),
so the bound acts when Anchor serializes the account back at
instruction exit.  The list here is accordingly unbounded as a value,
and the capacity failure is modelled in `mint`, the only instruction
that grows the list (see `MAXLEN`). -/
structure BridgeState where
  owner : Pubkey
  nonce : Nat
  paused : Bool
  processed_nonces : List Nat
deriving DecidableEq, Repr

/-- The `ErrorCode` enum of the program (lib.rs lines 453-466).
Note there is no `InvalidAmount` variant in the source. -/
inductive ErrorCode where
  | BridgePaused
  | AlreadyProcessed
  | Unauthorized
  | InvalidEthAddress
deriving DecidableEq, Repr

/-- Everything an embedded instruction can fail with: a program
`ErrorCode`, an error propagated from a token-program CPI call via `?`,
Anchor's failure of the `init` constraint when the account already
exists, Anchor's failure to serialize the account back into its fixed
allocation when the `Vec` outgrows its `max_len` (AccountDidNotSerialize),
or the abort on nonce overflow (see `incNonce`). -/
inductive BridgeErr where
  | code : ErrorCode → BridgeErr
  | adapter : Nat → BridgeErr
  | alreadyInitialized : BridgeErr
  | accountDidNotSerialize : BridgeErr
  | nonceOverflow : BridgeErr
deriving DecidableEq, Repr

/-- Outcome of a single token-program CPI call, supplied by the
environment: `.ok ()` if the transfer / mint_to / burn succeeded,
`.error e` with the adapter's error code otherwise. -/
abbrev AdapterResult := Except Nat Unit

instance {ε α : Type} [DecidableEq ε] [DecidableEq α] :
    DecidableEq (Except ε α)
  | .error a, .error b =>
      if h : a = b then .isTrue (congrArg Except.error h)
      else .isFalse fun hh => h (Except.error.inj hh)
  | .error _, .ok _ => .isFalse fun hh => Except.noConfusion hh
  | .ok _, .error _ => .isFalse fun hh => Except.noConfusion hh
  | .ok a, .ok b =>
      if h : a = b then .isTrue (congrArg Except.ok h)
      else .isFalse fun hh => h (Except.ok.inj hh)

/-- The events the program emits (lib.rs lines 425-447). -/
inductive Event where
  | lockEv (user : Pubkey) (amount : Nat) (nonce : Nat)
      (eth_recipient : String) (timestamp : Int)
  | mintEv (recipient : Pubkey) (amount : Nat) (nonce : Nat)
  | burnEv (user : Pubkey) (amount : Nat) (nonce : Nat)
      (eth_recipient : String)
deriving DecidableEq, Repr

/-- The Ethereum-address validation used by `lock` and `burn`
(lib.rs lines 65-68 and 196-199):
`eth_recipient.starts_with("0x") && eth_recipient.len() == 42`.
`starts_with("0x")` holds exactly when the first two characters are
`0` and `x` (the prefix is ASCII, so bytes and characters agree there),
and Rust `String::len` counts UTF-8 bytes, hence `utf8ByteSize`. -/
def validEthAddr (s : String) : Bool :=
  s.data.take 2 == ['0', 'x'] && s.utf8ByteSize == 42

/-- Modelled from the spec: the increment `bridge_state.nonce += 1`
(lib.rs lines 82 and 213) at the u64 maximum.  The Cargo build profile
that fixes `overflow-checks` for this repository is not under src/, so
the overflow behaviour of `+=` is taken from the spec: "Must never
decrease or wrap silently (overflow must be a hard error, not undefined
behavior)" — at `u64::MAX` the addition aborts the instruction instead
of wrapping. -/
def incNonce (n : Nat) : Except BridgeErr Nat :=
  if n + 1 < U64LIMIT then .ok (n + 1) else .error .nonceOverflow

/-- The `initialize` instruction (lib.rs lines 32-40) together with
Anchor's `init` constraint on the `bridge_state` account (lib.rs lines
277-284): if the account already exists the constraint fails before the
body runs; otherwise the account is created zero-initialized (so the
`Vec` is empty) and the body sets `owner`, `nonce = 0`, `paused = false`.
(`initBridge` because the Rust name is a Lean keyword.) -/
def initBridge (existing : Option BridgeState) (caller : Pubkey) :
    Except BridgeErr BridgeState :=
  match existing with
  | some _ => .error .alreadyInitialized
  | none =>
      .ok { owner := caller, nonce := 0, paused := false,
            processed_nonces := [] }

/-- The world after an `initialize` attempt: on failure the existing
account is untouched. -/
def initWorld (w : Option BridgeState) (caller : Pubkey) :
    Option BridgeState :=
  match initBridge w caller with
  | .ok s => some s
  | .error _ => w

/-- The freshly initialized bridge state. -/
def initState (caller : Pubkey) : BridgeState :=
  { owner := caller, nonce := 0, paused := false, processed_nonces := [] }

/-- `lock` (lib.rs lines 54-102): require not paused; require the
Ethereum address format; `token::transfer(...)?`; `nonce += 1`; emit
`LockEvent`. -/
def lock (s : BridgeState) (user : Pubkey) (amount : Nat)
    (eth_recipient : String) (transferRes : AdapterResult) (ts : Int) :
    Except BridgeErr (BridgeState × Event) :=
  if s.paused then .error (.code .BridgePaused)
  else if !validEthAddr eth_recipient then .error (.code .InvalidEthAddress)
  else match transferRes with
    | .error e => .error (.adapter e)
    | .ok _ =>
      match incNonce s.nonce with
      | .error e => .error e
      | .ok n' =>
        .ok ({ s with nonce := n' },
             .lockEv user amount n' eth_recipient ts)

/-- The `#[max_len(10000)]` capacity of `processed_nonces`
(lib.rs line 417), fixed into the account's allocation at `initialize`
(lib.rs line 280). -/
def MAXLEN : Nat := 10000

/-- `mint` (lib.rs lines 118-171): require not paused; require the nonce
not already processed; require the signing authority to be the stored
owner; `token::mint_to(...)?`; push the nonce; emit `MintEvent`.
The push itself is unchecked in the body, but when it makes the `Vec`
exceed its `max_len(10000)` allocation the account no longer fits its
fixed space and Anchor's exit serialization fails
(AccountDidNotSerialize), aborting the whole transaction — so such a
mint returns an error with no state change and no event. -/
def mint (s : BridgeState) (authority : Pubkey) (user : Pubkey)
    (amount : Nat) (nonce : Nat) (mintToRes : AdapterResult) :
    Except BridgeErr (BridgeState × Event) :=
  if s.paused then .error (.code .BridgePaused)
  else if nonce ∈ s.processed_nonces then .error (.code .AlreadyProcessed)
  else if authority ≠ s.owner then .error (.code .Unauthorized)
  else match mintToRes with
    | .error e => .error (.adapter e)
    | .ok _ =>
      if s.processed_nonces.length < MAXLEN then
        .ok ({ s with processed_nonces := s.processed_nonces ++ [nonce] },
             .mintEv user amount nonce)
      else .error .accountDidNotSerialize

/-- `burn` (lib.rs lines 185-233): require not paused; require the
Ethereum address format; `token::burn(...)?`; `nonce += 1`; emit
`BurnEvent`. -/
def burn (s : BridgeState) (user : Pubkey) (amount : Nat)
    (eth_recipient : String) (burnRes : AdapterResult) :
    Except BridgeErr (BridgeState × Event) :=
  if s.paused then .error (.code .BridgePaused)
  else if !validEthAddr eth_recipient then .error (.code .InvalidEthAddress)
  else match burnRes with
    | .error e => .error (.adapter e)
    | .ok _ =>
      match incNonce s.nonce with
      | .error e => .error e
      | .ok n' =>
        .ok ({ s with nonce := n' },
             .burnEv user amount n' eth_recipient)

/-- `pause` (lib.rs lines 238-249): require the signer to be the stored
owner; set `paused = true`. -/
def pause (s : BridgeState) (caller : Pubkey) :
    Except BridgeErr BridgeState :=
  if caller ≠ s.owner then .error (.code .Unauthorized)
  else .ok { s with paused := true }

/-- `unpause` (lib.rs lines 254-265): require the signer to be the
stored owner; set `paused = false`. -/
def unpause (s : BridgeState) (caller : Pubkey) :
    Except BridgeErr BridgeState :=
  if caller ≠ s.owner then .error (.code .Unauthorized)
  else .ok { s with paused := false }

/-- One call to the program, with the environment-supplied data (signing
keys, arguments, CPI outcome, clock) baked into the constructor. -/
inductive Op where
  | lockOp (user : Pubkey) (amount : Nat) (addr : String)
      (res : AdapterResult) (ts : Int)
  | mintOp (authority : Pubkey) (user : Pubkey) (amount : Nat)
      (nonce : Nat) (res : AdapterResult)
  | burnOp (user : Pubkey) (amount : Nat) (addr : String)
      (res : AdapterResult)
  | pauseOp (caller : Pubkey)
  | unpauseOp (caller : Pubkey)
deriving Repr

/-- Dispatch one call against the current state; `pause`/`unpause` emit
no event. -/
def step (s : BridgeState) (op : Op) :
    Except BridgeErr (BridgeState × Option Event) :=
  match op with
  | .lockOp u a addr r ts =>
      match lock s u a addr r ts with
      | .ok p => .ok (p.1, some p.2)
      | .error e => .error e
  | .mintOp auth u a n r =>
      match mint s auth u a n r with
      | .ok p => .ok (p.1, some p.2)
      | .error e => .error e
  | .burnOp u a addr r =>
      match burn s u a addr r with
      | .ok p => .ok (p.1, some p.2)
      | .error e => .error e
  | .pauseOp c =>
      match pause s c with
      | .ok s' => .ok (s', none)
      | .error e => .error e
  | .unpauseOp c =>
      match unpause s c with
      | .ok s' => .ok (s', none)
      | .error e => .error e

/-- The state after one call: the new state on success, the old state on
failure (a failed Anchor instruction aborts the transaction and rolls
every account back). -/
def apply (s : BridgeState) (op : Op) : BridgeState :=
  match step s op with
  | .ok (s', _) => s'
  | .error _ => s

/-- The state after a sequence of calls. -/
def run (s : BridgeState) (ops : List Op) : BridgeState :=
  ops.foldl apply s

/-- Whether this call is a successful `mint` carrying nonce `n`. -/
def isMintSuccess (s : BridgeState) (op : Op) (n : Nat) : Bool :=
  match op with
  | .mintOp _ _ _ n' _ => n' == n && (step s op).isOk
  | _ => false

/-- How many calls in the trace are successful `mint`s carrying nonce
`n`, stepping the state along the trace. -/
def countMintSuccess (s : BridgeState) (ops : List Op) (n : Nat) : Nat :=
  match ops with
  | [] => 0
  | op :: rest =>
      (if isMintSuccess s op n then 1 else 0) +
        countMintSuccess (apply s op) rest n

/-- Whether the call is a `lock` or a `burn` (the two nonce-incrementing
instructions). -/
def isLockBurnOp (op : Op) : Bool :=
  match op with
  | .lockOp _ _ _ _ _ => true
  | .burnOp _ _ _ _ => true
  | _ => false

/-- Whether this call is a successful `lock` or `burn`. -/
def isLockBurnSuccess (s : BridgeState) (op : Op) : Bool :=
  isLockBurnOp op && (step s op).isOk

/-- How many calls in the trace are successful `lock`s or `burn`s. -/
def countLockBurnSuccess (s : BridgeState) (ops : List Op) : Nat :=
  match ops with
  | [] => 0
  | op :: rest =>
      (if isLockBurnSuccess s op then 1 else 0) +
        countLockBurnSuccess (apply s op) rest

/-- Whether the call is `pause` or `unpause`. -/
def isPauseOp (op : Op) : Bool :=
  match op with
  | .pauseOp _ => true
  | .unpauseOp _ => true
  | _ => false

/-! ### Characterization of successful instructions -/

theorem lock_ok_iff (s : BridgeState) (u : Pubkey) (a : Nat) (addr : String)
    (r : AdapterResult) (ts : Int) (p : BridgeState × Event) :
    lock s u a addr r ts = .ok p ↔
      s.paused = false ∧ validEthAddr addr = true ∧ r = .ok () ∧
        s.nonce + 1 < U64LIMIT ∧
        p = ({ s with nonce := s.nonce + 1 },
             .lockEv u a (s.nonce + 1) addr ts) := by
  unfold lock incNonce
  rcases r with e | x
  · split_ifs <;> simp_all
  · cases x
    split_ifs <;> simp_all [@eq_comm _ p]

theorem burn_ok_iff (s : BridgeState) (u : Pubkey) (a : Nat) (addr : String)
    (r : AdapterResult) (p : BridgeState × Event) :
    burn s u a addr r = .ok p ↔
      s.paused = false ∧ validEthAddr addr = true ∧ r = .ok () ∧
        s.nonce + 1 < U64LIMIT ∧
        p = ({ s with nonce := s.nonce + 1 },
             .burnEv u a (s.nonce + 1) addr) := by
  unfold burn incNonce
  rcases r with e | x
  · split_ifs <;> simp_all
  · cases x
    split_ifs <;> simp_all [@eq_comm _ p]

theorem mint_ok_iff (s : BridgeState) (auth u : Pubkey) (a n : Nat)
    (r : AdapterResult) (p : BridgeState × Event) :
    mint s auth u a n r = .ok p ↔
      s.paused = false ∧ n ∉ s.processed_nonces ∧ auth = s.owner ∧
        r = .ok () ∧ s.processed_nonces.length < MAXLEN ∧
        p = ({ s with processed_nonces := s.processed_nonces ++ [n] },
             .mintEv u a n) := by
  unfold mint
  rcases r with e | x
  · split_ifs <;> simp_all
  · cases x
    split_ifs <;> simp_all [@eq_comm _ p]

/-! ### Error characterizations -/

theorem lock_paused {s : BridgeState} (u : Pubkey) (a : Nat) (addr : String)
    (r : AdapterResult) (ts : Int) (h : s.paused = true) :
    lock s u a addr r ts = .error (.code .BridgePaused) := by
  simp [lock, h]

theorem mint_paused {s : BridgeState} (auth u : Pubkey) (a n : Nat)
    (r : AdapterResult) (h : s.paused = true) :
    mint s auth u a n r = .error (.code .BridgePaused) := by
  simp [mint, h]

theorem burn_paused {s : BridgeState} (u : Pubkey) (a : Nat) (addr : String)
    (r : AdapterResult) (h : s.paused = true) :
    burn s u a addr r = .error (.code .BridgePaused) := by
  simp [burn, h]

theorem lock_bad_addr {s : BridgeState} (u : Pubkey) (a : Nat) {addr : String}
    (r : AdapterResult) (ts : Int) (hp : s.paused = false)
    (hv : validEthAddr addr = false) :
    lock s u a addr r ts = .error (.code .InvalidEthAddress) := by
  simp [lock, hp, hv]

theorem burn_bad_addr {s : BridgeState} (u : Pubkey) (a : Nat) {addr : String}
    (r : AdapterResult) (hp : s.paused = false)
    (hv : validEthAddr addr = false) :
    burn s u a addr r = .error (.code .InvalidEthAddress) := by
  simp [burn, hp, hv]

theorem mint_processed {s : BridgeState} (auth u : Pubkey) (a : Nat) {n : Nat}
    (r : AdapterResult) (hp : s.paused = false)
    (hn : n ∈ s.processed_nonces) :
    mint s auth u a n r = .error (.code .AlreadyProcessed) := by
  simp [mint, hp, hn]

theorem mint_unauthorized {s : BridgeState} {auth : Pubkey} (u : Pubkey)
    (a : Nat) {n : Nat} (r : AdapterResult) (hp : s.paused = false)
    (hn : n ∉ s.processed_nonces) (ha : auth ≠ s.owner) :
    mint s auth u a n r = .error (.code .Unauthorized) := by
  simp [mint, hp, hn, ha]

theorem lock_adapter_err {s : BridgeState} (u : Pubkey) (a : Nat)
    {addr : String} (e : Nat) (ts : Int) (hp : s.paused = false)
    (hv : validEthAddr addr = true) :
    lock s u a addr (.error e) ts = .error (.adapter e) := by
  simp [lock, hp, hv]

theorem burn_adapter_err {s : BridgeState} (u : Pubkey) (a : Nat)
    {addr : String} (e : Nat) (hp : s.paused = false)
    (hv : validEthAddr addr = true) :
    burn s u a addr (.error e) = .error (.adapter e) := by
  simp [burn, hp, hv]

theorem mint_adapter_err {s : BridgeState} {auth : Pubkey} (u : Pubkey)
    (a : Nat) {n : Nat} (e : Nat) (hp : s.paused = false)
    (hn : n ∉ s.processed_nonces) (ha : auth = s.owner) :
    mint s auth u a n (.error e) = .error (.adapter e) := by
  simp [mint, hp, hn, ha]

theorem lock_never_unauthorized (s : BridgeState) (u : Pubkey) (a : Nat)
    (addr : String) (r : AdapterResult) (ts : Int) :
    lock s u a addr r ts ≠ .error (.code .Unauthorized) := by
  unfold lock incNonce
  rcases r with e | x <;> split_ifs <;> simp

theorem burn_never_unauthorized (s : BridgeState) (u : Pubkey) (a : Nat)
    (addr : String) (r : AdapterResult) :
    burn s u a addr r ≠ .error (.code .Unauthorized) := by
  unfold burn incNonce
  rcases r with e | x <;> split_ifs <;> simp

theorem pause_owner {s : BridgeState} {c : Pubkey} (h : c = s.owner) :
    pause s c = .ok { s with paused := true } := by
  simp [pause, h]

theorem pause_ok_iff (s : BridgeState) (c : Pubkey) (s0 : BridgeState) :
    pause s c = .ok s0 ↔ c = s.owner ∧ s0 = { s with paused := true } := by
  unfold pause
  split_ifs with hc <;> simp_all [@eq_comm _ s0]

theorem unpause_ok_iff (s : BridgeState) (c : Pubkey) (s0 : BridgeState) :
    unpause s c = .ok s0 ↔ c = s.owner ∧ s0 = { s with paused := false } := by
  unfold unpause
  split_ifs with hc <;> simp_all [@eq_comm _ s0]

theorem pause_not_owner {s : BridgeState} {c : Pubkey} (h : c ≠ s.owner) :
    pause s c = .error (.code .Unauthorized) := by
  simp [pause, h]

theorem unpause_owner {s : BridgeState} {c : Pubkey} (h : c = s.owner) :
    unpause s c = .ok { s with paused := false } := by
  simp [unpause, h]

theorem unpause_not_owner {s : BridgeState} {c : Pubkey} (h : c ≠ s.owner) :
    unpause s c = .error (.code .Unauthorized) := by
  simp [unpause, h]

/-! ### The state after a call -/

theorem apply_of_error {s : BridgeState} {op : Op} {e : BridgeErr}
    (h : step s op = .error e) : apply s op = s := by
  simp [apply, h]

theorem apply_of_ok {s s' : BridgeState} {op : Op} {ev : Option Event}
    (h : step s op = .ok (s', ev)) : apply s op = s' := by
  simp [apply, h]

/-- Full shape of a successful call, per instruction. -/
theorem step_ok_shape {s s' : BridgeState} {op : Op} {ev : Option Event}
    (h : step s op = .ok (s', ev)) :
    match op with
    | .lockOp u a addr r ts =>
        s.paused = false ∧ validEthAddr addr = true ∧ r = .ok () ∧
          s.nonce + 1 < U64LIMIT ∧ s' = { s with nonce := s.nonce + 1 } ∧
          ev = some (.lockEv u a (s.nonce + 1) addr ts)
    | .mintOp auth u a n r =>
        s.paused = false ∧ n ∉ s.processed_nonces ∧ auth = s.owner ∧
          r = .ok () ∧ s.processed_nonces.length < MAXLEN ∧
          s' = { s with processed_nonces := s.processed_nonces ++ [n] } ∧
          ev = some (.mintEv u a n)
    | .burnOp u a addr r =>
        s.paused = false ∧ validEthAddr addr = true ∧ r = .ok () ∧
          s.nonce + 1 < U64LIMIT ∧ s' = { s with nonce := s.nonce + 1 } ∧
          ev = some (.burnEv u a (s.nonce + 1) addr)
    | .pauseOp c => c = s.owner ∧ s' = { s with paused := true } ∧ ev = none
    | .unpauseOp c =>
        c = s.owner ∧ s' = { s with paused := false } ∧ ev = none := by
  cases op with
  | lockOp u a addr r ts =>
      simp only [step] at h
      rcases hl : lock s u a addr r ts with e | p <;> rw [hl] at h
      · cases h
      · cases h
        rw [lock_ok_iff] at hl
        obtain ⟨h1, h2, h3, h4, h5⟩ := hl
        subst h5
        exact ⟨h1, h2, h3, h4, rfl, rfl⟩
  | mintOp auth u a n r =>
      simp only [step] at h
      rcases hl : mint s auth u a n r with e | p <;> rw [hl] at h
      · cases h
      · cases h
        rw [mint_ok_iff] at hl
        obtain ⟨h1, h2, h3, h4, h5, h6⟩ := hl
        subst h6
        exact ⟨h1, h2, h3, h4, h5, rfl, rfl⟩
  | burnOp u a addr r =>
      simp only [step] at h
      rcases hl : burn s u a addr r with e | p <;> rw [hl] at h
      · cases h
      · cases h
        rw [burn_ok_iff] at hl
        obtain ⟨h1, h2, h3, h4, h5⟩ := hl
        subst h5
        exact ⟨h1, h2, h3, h4, rfl, rfl⟩
  | pauseOp c =>
      simp only [step] at h
      rcases hl : pause s c with e | s0 <;> rw [hl] at h
      · cases h
      · cases h
        rw [pause_ok_iff] at hl
        obtain ⟨h1, h2⟩ := hl
        subst h2
        exact ⟨h1, rfl, rfl⟩
  | unpauseOp c =>
      simp only [step] at h
      rcases hl : unpause s c with e | s0 <;> rw [hl] at h
      · cases h
      · cases h
        rw [unpause_ok_iff] at hl
        obtain ⟨h1, h2⟩ := hl
        subst h2
        exact ⟨h1, rfl, rfl⟩

/-! ### Frame lemmas for `apply` -/

theorem owner_apply (s : BridgeState) (op : Op) :
    (apply s op).owner = s.owner := by
  rcases hstep : step s op with e | ⟨s', ev⟩
  · rw [apply_of_error hstep]
  · rw [apply_of_ok hstep]
    have hs := step_ok_shape hstep
    cases op <;> simp_all

theorem paused_apply {op : Op} (s : BridgeState) (h : isPauseOp op = false) :
    (apply s op).paused = s.paused := by
  rcases hstep : step s op with e | ⟨s', ev⟩
  · rw [apply_of_error hstep]
  · rw [apply_of_ok hstep]
    have hs := step_ok_shape hstep
    cases op <;> simp_all [isPauseOp]

theorem processed_apply_cases (s : BridgeState) (op : Op) :
    (apply s op).processed_nonces = s.processed_nonces ∨
      ∃ n, n ∉ s.processed_nonces ∧
        (apply s op).processed_nonces = s.processed_nonces ++ [n] := by
  rcases hstep : step s op with e | ⟨s', ev⟩
  · rw [apply_of_error hstep]; left; rfl
  · rw [apply_of_ok hstep]
    have hs := step_ok_shape hstep
    cases op with
    | mintOp auth u a n r =>
        right
        exact ⟨n, hs.2.1, by simp_all⟩
    | _ => left; simp_all

theorem processed_subset_apply (s : BridgeState) (op : Op) :
    s.processed_nonces ⊆ (apply s op).processed_nonces := by
  rcases processed_apply_cases s op with h | ⟨n, _, h⟩ <;> rw [h]
  · exact List.Subset.refl _
  · exact List.subset_append_left _ _

theorem nodup_apply {s : BridgeState} (op : Op)
    (h : s.processed_nonces.Nodup) :
    (apply s op).processed_nonces.Nodup := by
  rcases processed_apply_cases s op with hc | ⟨n, hn, hc⟩ <;> rw [hc]
  · exact h
  · exact h.append (List.nodup_singleton n) (List.disjoint_singleton.mpr hn)

theorem nonce_apply_eq (s : BridgeState) (op : Op) :
    (apply s op).nonce =
      s.nonce + (if isLockBurnSuccess s op then 1 else 0) := by
  rcases hstep : step s op with e | ⟨s', ev⟩
  · rw [apply_of_error hstep]
    simp [isLockBurnSuccess, hstep, Except.isOk, Except.toBool]
  · rw [apply_of_ok hstep]
    have hs := step_ok_shape hstep
    cases op with
    | lockOp u a addr r ts =>
        obtain ⟨h1, h2, h3, h4, h5, h6⟩ := hs
        subst h5
        simp [isLockBurnSuccess, isLockBurnOp, hstep, Except.isOk,
          Except.toBool]
    | burnOp u a addr r =>
        obtain ⟨h1, h2, h3, h4, h5, h6⟩ := hs
        subst h5
        simp [isLockBurnSuccess, isLockBurnOp, hstep, Except.isOk,
          Except.toBool]
    | mintOp auth u a n r =>
        obtain ⟨h1, h2, h3, h4, h5, h6, h7⟩ := hs
        subst h6
        simp [isLockBurnSuccess, isLockBurnOp]
    | pauseOp c =>
        obtain ⟨h1, h2, h3⟩ := hs
        subst h2
        simp [isLockBurnSuccess, isLockBurnOp]
    | unpauseOp c =>
        obtain ⟨h1, h2, h3⟩ := hs
        subst h2
        simp [isLockBurnSuccess, isLockBurnOp]

theorem nonce_apply_cases (s : BridgeState) (op : Op) :
    (apply s op).nonce = s.nonce ∨
      ((apply s op).nonce = s.nonce + 1 ∧ s.nonce + 1 < U64LIMIT) := by
  rcases hstep : step s op with e | ⟨s', ev⟩
  · rw [apply_of_error hstep]; left; rfl
  · rw [apply_of_ok hstep]
    have hs := step_ok_shape hstep
    cases op with
    | lockOp u a addr r ts => right; constructor <;> simp_all
    | burnOp u a addr r => right; constructor <;> simp_all
    | _ => left; simp_all

/-! ### Trace-level lemmas -/

theorem run_nil (s : BridgeState) : run s [] = s := rfl

theorem run_cons (s : BridgeState) (op : Op) (ops : List Op) :
    run s (op :: ops) = run (apply s op) ops := rfl

theorem nodup_run {s : BridgeState} (ops : List Op)
    (h : s.processed_nonces.Nodup) :
    (run s ops).processed_nonces.Nodup := by
  induction ops generalizing s with
  | nil => exact h
  | cons op rest ih => exact ih (nodup_apply op h)

theorem owner_run (s : BridgeState) (ops : List Op) :
    (run s ops).owner = s.owner := by
  induction ops generalizing s with
  | nil => rfl
  | cons op rest ih => rw [run_cons, ih, owner_apply]

theorem nonce_run (s : BridgeState) (ops : List Op) :
    (run s ops).nonce = s.nonce + countLockBurnSuccess s ops := by
  induction ops generalizing s with
  | nil => simp [run_nil, countLockBurnSuccess]
  | cons op rest ih =>
      rw [run_cons, ih, nonce_apply_eq]
      simp only [countLockBurnSuccess]
      omega

theorem isMintSuccess_false_of_mem {s : BridgeState} {n : Nat} (op : Op)
    (hn : n ∈ s.processed_nonces) : isMintSuccess s op n = false := by
  cases op with
  | mintOp auth u a n' r =>
      simp only [isMintSuccess, Bool.and_eq_false_iff]
      by_cases he : n' = n
      · subst he
        right
        rcases hstep : step s (.mintOp auth u a n' r) with e | ⟨s', ev⟩
        · rfl
        · have hs := step_ok_shape hstep
          exact absurd hn hs.2.1
      · left; simp [he]
  | _ => rfl

theorem mem_of_isMintSuccess {s : BridgeState} {n : Nat} {op : Op}
    (h : isMintSuccess s op n = true) :
    n ∈ (apply s op).processed_nonces := by
  cases op with
  | mintOp auth u a n' r =>
      simp only [isMintSuccess, Bool.and_eq_true, beq_iff_eq] at h
      obtain ⟨he, hok⟩ := h
      subst he
      rcases hstep : step s (.mintOp auth u a n' r) with e | ⟨s', ev⟩
      · rw [hstep] at hok; simp [Except.isOk, Except.toBool] at hok
      · rw [apply_of_ok hstep]
        have hs := step_ok_shape hstep
        have : s' = { s with processed_nonces := s.processed_nonces ++ [n'] } := by
          simp_all
        rw [this]
        simp
  | lockOp u a addr r ts => simp [isMintSuccess] at h
  | burnOp u a addr r => simp [isMintSuccess] at h
  | pauseOp c => simp [isMintSuccess] at h
  | unpauseOp c => simp [isMintSuccess] at h

theorem countMintSuccess_zero {s : BridgeState} {n : Nat} (ops : List Op)
    (hn : n ∈ s.processed_nonces) : countMintSuccess s ops n = 0 := by
  induction ops generalizing s with
  | nil => rfl
  | cons op rest ih =>
      simp [countMintSuccess, isMintSuccess_false_of_mem op hn]
      exact ih (processed_subset_apply s op hn)

theorem countMintSuccess_le_one (s : BridgeState) (ops : List Op) (n : Nat) :
    countMintSuccess s ops n ≤ 1 := by
  induction ops generalizing s with
  | nil => simp [countMintSuccess]
  | cons op rest ih =>
      rcases h : isMintSuccess s op n with _ | _
      · simp [countMintSuccess, h]
        exact ih (apply s op)
      · simp [countMintSuccess, h]
        have h0 := countMintSuccess_zero (s := apply s op) rest
          (mem_of_isMintSuccess h)
        omega

/-! ### Step-level transfer lemmas -/

theorem step_lock_err (s : BridgeState) (u : Pubkey) (a : Nat)
    (addr : String) (r : AdapterResult) (ts : Int) (e : BridgeErr) :
    step s (.lockOp u a addr r ts) = .error e ↔
      lock s u a addr r ts = .error e := by
  unfold step
  rcases hl : lock s u a addr r ts with e' | p <;> simp [hl]

theorem step_mint_err (s : BridgeState) (auth u : Pubkey) (a n : Nat)
    (r : AdapterResult) (e : BridgeErr) :
    step s (.mintOp auth u a n r) = .error e ↔
      mint s auth u a n r = .error e := by
  unfold step
  rcases hl : mint s auth u a n r with e' | p <;> simp [hl]

theorem step_burn_err (s : BridgeState) (u : Pubkey) (a : Nat)
    (addr : String) (r : AdapterResult) (e : BridgeErr) :
    step s (.burnOp u a addr r) = .error e ↔
      burn s u a addr r = .error e := by
  unfold step
  rcases hl : burn s u a addr r with e' | p <;> simp [hl]

theorem lock_valid_no_addr_err {s : BridgeState} {u : Pubkey} {a : Nat}
    {addr : String} {r : AdapterResult} {ts : Int}
    (hv : validEthAddr addr = true) :
    lock s u a addr r ts ≠ .error (.code .InvalidEthAddress) := by
  unfold lock incNonce
  rcases r with e | x <;> split_ifs <;> simp_all

theorem burn_valid_no_addr_err {s : BridgeState} {u : Pubkey} {a : Nat}
    {addr : String} {r : AdapterResult}
    (hv : validEthAddr addr = true) :
    burn s u a addr r ≠ .error (.code .InvalidEthAddress) := by
  unfold burn incNonce
  rcases r with e | x <;> split_ifs <;> simp_all

/-! ### Claim theorems -/

/-- C1: replay safety.  Starting from an initialized bridge, over any
sequence of operations at most one `mint` carrying a given nonce `n`
succeeds; the processed-nonce list never contains a duplicate; and a
`mint` whose nonce is already recorded never succeeds — when the bridge
is not paused it fails with `AlreadyProcessed`. -/
theorem C1_replay_safety (o : Pubkey) (ops : List Op) (n : Nat) :
    countMintSuccess (initState o) ops n ≤ 1 ∧
    (run (initState o) ops).processed_nonces.Nodup ∧
    (∀ (s : BridgeState) (auth u : Pubkey) (a : Nat) (r : AdapterResult),
      n ∈ s.processed_nonces →
        (step s (.mintOp auth u a n r)).isOk = false ∧
        (s.paused = false →
          step s (.mintOp auth u a n r) =
            .error (.code .AlreadyProcessed))) := by
  refine ⟨countMintSuccess_le_one _ _ _,
    nodup_run _ (by simp [initState]), ?_⟩
  intro s auth u a r hn
  constructor
  · have h := isMintSuccess_false_of_mem
      (s := s) (n := n) (.mintOp auth u a n r) hn
    simpa [isMintSuccess] using h
  · intro hp
    rw [step_mint_err]
    exact mint_processed auth u a r hp hn

/-- Witness for C1 at concrete inputs: a double mint of nonce 7 counts
once, and a mint of a recorded nonce fails with `AlreadyProcessed`. -/
theorem C1_replay_safety_witness :
    countMintSuccess (initState 0)
        [.mintOp 0 1 5 7 (.ok ()), .mintOp 0 1 5 7 (.ok ())] 7 ≤ 1 ∧
    step { owner := 0, nonce := 0, paused := false, processed_nonces := [7] }
        (.mintOp 0 2 5 7 (.ok ())) = .error (.code .AlreadyProcessed) := by
  refine ⟨(C1_replay_safety 0 _ 7).1, ?_⟩
  exact ((C1_replay_safety 0 [] 7).2.2 _ 0 2 5 (.ok ()) (by decide)).2 rfl

/-- C3: `mint` checks paused, then replay, then authorization, in that
order with short-circuiting; it fails `Unauthorized` for every
non-owner caller; `lock` and `burn` never fail `Unauthorized` (they
impose no owner check). -/
theorem C3_mint_check_order (s : BridgeState) (auth u : Pubkey)
    (a n : Nat) (r : AdapterResult) (addr : String) (ts : Int) :
    (s.paused = true →
      mint s auth u a n r = .error (.code .BridgePaused)) ∧
    (s.paused = false → n ∈ s.processed_nonces →
      mint s auth u a n r = .error (.code .AlreadyProcessed)) ∧
    (s.paused = false → n ∉ s.processed_nonces → auth ≠ s.owner →
      mint s auth u a n r = .error (.code .Unauthorized)) ∧
    lock s u a addr r ts ≠ .error (.code .Unauthorized) ∧
    burn s u a addr r ≠ .error (.code .Unauthorized) := by
  exact ⟨mint_paused auth u a n r,
    fun hp hn => mint_processed auth u a r hp hn,
    fun hp hn ha => mint_unauthorized u a r hp hn ha,
    lock_never_unauthorized s u a addr r ts,
    burn_never_unauthorized s u a addr r⟩

/-- Witness for C3: a paused bridge answers `BridgePaused` even to an
unauthorized caller; a recorded nonce answers `AlreadyProcessed` before
the owner check; a fresh nonce from a non-owner answers `Unauthorized`. -/
theorem C3_mint_check_order_witness :
    mint { owner := 0, nonce := 0, paused := true, processed_nonces := [] }
        9 1 5 7 (.ok ()) = .error (.code .BridgePaused) ∧
    mint { owner := 0, nonce := 0, paused := false, processed_nonces := [7] }
        9 1 5 7 (.ok ()) = .error (.code .AlreadyProcessed) ∧
    mint { owner := 0, nonce := 0, paused := false, processed_nonces := [] }
        9 1 5 7 (.ok ()) = .error (.code .Unauthorized) := by
  refine ⟨(C3_mint_check_order _ 9 1 5 7 (.ok ()) "" 0).1 rfl, ?_, ?_⟩
  · exact (C3_mint_check_order _ 9 1 5 7 (.ok ()) "" 0).2.1 rfl (by decide)
  · exact (C3_mint_check_order _ 9 1 5 7 (.ok ()) "" 0).2.2.1 rfl
      (by decide) (by decide)

/-- C4: while `paused` is true every `lock`, `mint` and `burn` fails
with `BridgePaused` leaving the state unchanged; `pause`/`unpause`
succeed exactly for the stored owner and fail `Unauthorized` otherwise;
no other operation changes the `paused` flag. -/
theorem C4_pause_exclusivity (s : BridgeState) (c auth u : Pubkey)
    (a n : Nat) (addr : String) (r : AdapterResult) (ts : Int) (op : Op) :
    (s.paused = true →
      step s (.lockOp u a addr r ts) = .error (.code .BridgePaused) ∧
      step s (.mintOp auth u a n r) = .error (.code .BridgePaused) ∧
      step s (.burnOp u a addr r) = .error (.code .BridgePaused) ∧
      apply s (.lockOp u a addr r ts) = s ∧
      apply s (.mintOp auth u a n r) = s ∧
      apply s (.burnOp u a addr r) = s) ∧
    (c = s.owner →
      pause s c = .ok { s with paused := true } ∧
      unpause s c = .ok { s with paused := false }) ∧
    (c ≠ s.owner →
      pause s c = .error (.code .Unauthorized) ∧
      unpause s c = .error (.code .Unauthorized)) ∧
    (isPauseOp op = false → (apply s op).paused = s.paused) := by
  refine ⟨fun hp => ?_, fun hc => ⟨pause_owner hc, unpause_owner hc⟩,
    fun hc => ⟨pause_not_owner hc, unpause_not_owner hc⟩,
    fun hop => paused_apply s hop⟩
  have h1 := (step_lock_err s u a addr r ts _).mpr
    (lock_paused u a addr r ts hp)
  have h2 := (step_mint_err s auth u a n r _).mpr
    (mint_paused auth u a n r hp)
  have h3 := (step_burn_err s u a addr r _).mpr
    (burn_paused u a addr r hp)
  exact ⟨h1, h2, h3, apply_of_error h1, apply_of_error h2,
    apply_of_error h3⟩

/-- Witness for C4 at a concrete paused state and concrete callers. -/
theorem C4_pause_exclusivity_witness :
    step { owner := 0, nonce := 3, paused := true, processed_nonces := [] }
        (.lockOp 1 5 "0x0000000000000000000000000000000000000000"
          (.ok ()) 0) = .error (.code .BridgePaused) ∧
    pause { owner := 0, nonce := 3, paused := true, processed_nonces := [] }
        0 = .ok { owner := 0, nonce := 3, paused := true,
                  processed_nonces := [] } ∧
    unpause { owner := 0, nonce := 3, paused := true, processed_nonces := [] }
        4 = .error (.code .Unauthorized) ∧
    (apply { owner := 0, nonce := 3, paused := true, processed_nonces := [] }
        (.mintOp 0 1 5 7 (.ok ()))).paused = true := by
  have hC := C4_pause_exclusivity
    { owner := 0, nonce := 3, paused := true, processed_nonces := [] }
    0 0 1 5 7 "0x0000000000000000000000000000000000000000" (.ok ()) 0
    (.mintOp 0 1 5 7 (.ok ()))
  have hC2 := C4_pause_exclusivity
    { owner := 0, nonce := 3, paused := true, processed_nonces := [] }
    4 0 1 5 7 "0x0000000000000000000000000000000000000000" (.ok ()) 0
    (.mintOp 0 1 5 7 (.ok ()))
  exact ⟨(hC.1 rfl).1, (hC.2.1 rfl).1, (hC2.2.2.1 (by decide)).2,
    (hC.2.2.2 rfl).trans rfl⟩

/-- C5: from the initialized state the nonce equals the number of
successful `lock`/`burn` calls in the trace; an operation that is not a
`lock` or `burn` never changes the nonce; a successful `lock` or `burn`
increments it by exactly 1. -/
theorem C5_nonce_counting (o : Pubkey) (ops : List Op) (s : BridgeState)
    (op : Op) :
    (run (initState o) ops).nonce =
      countLockBurnSuccess (initState o) ops ∧
    (isLockBurnOp op = false → (apply s op).nonce = s.nonce) ∧
    (isLockBurnSuccess s op = true → (apply s op).nonce = s.nonce + 1) := by
  refine ⟨by rw [nonce_run]; simp [initState], fun hop => ?_, fun hs => ?_⟩
  · rw [nonce_apply_eq]
    simp [isLockBurnSuccess, hop]
  · rw [nonce_apply_eq, hs]
    simp

/-- Witness for C5: a concrete trace with one successful lock, one
failed lock, one successful burn and a mint has final nonce 2. -/
theorem C5_nonce_counting_witness :
    (run (initState 0)
        [.lockOp 1 5 "0x0000000000000000000000000000000000000000" (.ok ()) 0,
         .lockOp 1 5 "0xbad" (.ok ()) 0,
         .burnOp 1 5 "0x0000000000000000000000000000000000000000" (.ok ()),
         .mintOp 0 1 5 7 (.ok ())]).nonce =
      countLockBurnSuccess (initState 0)
        [.lockOp 1 5 "0x0000000000000000000000000000000000000000" (.ok ()) 0,
         .lockOp 1 5 "0xbad" (.ok ()) 0,
         .burnOp 1 5 "0x0000000000000000000000000000000000000000" (.ok ()),
         .mintOp 0 1 5 7 (.ok ())] ∧
    countLockBurnSuccess (initState 0)
        [.lockOp 1 5 "0x0000000000000000000000000000000000000000" (.ok ()) 0,
         .lockOp 1 5 "0xbad" (.ok ()) 0,
         .burnOp 1 5 "0x0000000000000000000000000000000000000000" (.ok ()),
         .mintOp 0 1 5 7 (.ok ())] = 2 ∧
    (apply (initState 0) (.pauseOp 0)).nonce = 0 := by
  refine ⟨(C5_nonce_counting 0 _ (initState 0) (.pauseOp 0)).1,
    by decide, ?_⟩
  exact (C5_nonce_counting 0 [] (initState 0) (.pauseOp 0)).2.1 rfl

/-- C2 counterexample: the claim's retry clause is unconditional, but
with the replay list at its `max_len` capacity of 10000 entries a mint
whose checks pass and whose `mint_to` call succeeds still aborts — the
grown account no longer fits its fixed allocation and fails to
serialize at instruction exit — so after a failed `mint_to` at such a
state a retry with the same nonce is NOT possible. -/
theorem C2_capacity_counterexample :
    step { owner := 0, nonce := 0, paused := false,
           processed_nonces := List.range 10000 }
        (.mintOp 0 1 5 10000 (.error 11)) = .error (.adapter 11) ∧
    (step { owner := 0, nonce := 0, paused := false,
            processed_nonces := List.range 10000 }
        (.mintOp 0 1 5 10000 (.ok ()))).isOk = false := by
  constructor
  · rw [step_mint_err]
    exact mint_adapter_err 1 5 11 rfl (by simp) rfl
  · have h : mint { owner := 0, nonce := 0, paused := false,
                    processed_nonces := List.range 10000 }
        0 1 5 10000 (.ok ()) = .error .accountDidNotSerialize := by
      simp [mint, MAXLEN]
    simp [step, h, Except.isOk, Except.toBool]

/-- C2 amended: atomicity on adapter failure.  Whenever the CPI call
inside `lock`, `mint` or `burn` reports an error (and the operation
reached that call, i.e. its earlier checks passed), the operation
returns that same error, the state is completely unchanged and no
event is emitted (an error result carries no event); after a failed
`mint_to` the nonce is still absent, so the same mint retried with a
succeeding adapter call succeeds PROVIDED the replay list has not
reached its `max_len(10000)` capacity (at capacity the retry aborts on
account serialization, see `C2_capacity_counterexample`). -/
theorem C2_adapter_atomicity (s : BridgeState) (auth u : Pubkey)
    (a n : Nat) (addr : String) (e : Nat) (ts : Int) :
    (s.paused = false → validEthAddr addr = true →
      step s (.lockOp u a addr (.error e) ts) = .error (.adapter e) ∧
      apply s (.lockOp u a addr (.error e) ts) = s) ∧
    (s.paused = false → validEthAddr addr = true →
      step s (.burnOp u a addr (.error e)) = .error (.adapter e) ∧
      apply s (.burnOp u a addr (.error e)) = s) ∧
    (s.paused = false → n ∉ s.processed_nonces → auth = s.owner →
      step s (.mintOp auth u a n (.error e)) = .error (.adapter e) ∧
      apply s (.mintOp auth u a n (.error e)) = s ∧
      (s.processed_nonces.length < MAXLEN →
        (step s (.mintOp auth u a n (.ok ()))).isOk = true)) := by
  refine ⟨fun hp hv => ?_, fun hp hv => ?_, fun hp hn ha => ?_⟩
  · have h := (step_lock_err s u a addr (.error e) ts _).mpr
      (lock_adapter_err u a e ts hp hv)
    exact ⟨h, apply_of_error h⟩
  · have h := (step_burn_err s u a addr (.error e) _).mpr
      (burn_adapter_err u a e hp hv)
    exact ⟨h, apply_of_error h⟩
  · have h := (step_mint_err s auth u a n (.error e) _).mpr
      (mint_adapter_err u a e hp hn ha)
    refine ⟨h, apply_of_error h, fun hlen => ?_⟩
    have hok : mint s auth u a n (.ok ()) =
        .ok ({ s with processed_nonces := s.processed_nonces ++ [n] },
             .mintEv u a n) := by
      simp [mint, hp, hn, ha, hlen]
    simp [step, hok, Except.isOk, Except.toBool]

/-- Witness for the amended C2: a failed `mint_to` on a fresh state
(replay list well below capacity) returns the adapter error, leaves
the state unchanged, and the retry succeeds. -/
theorem C2_adapter_atomicity_witness :
    step (initState 0) (.mintOp 0 1 5 7 (.error 11)) =
      .error (.adapter 11) ∧
    apply (initState 0) (.mintOp 0 1 5 7 (.error 11)) = initState 0 ∧
    (step (initState 0) (.mintOp 0 1 5 7 (.ok ()))).isOk = true := by
  have h := (C2_adapter_atomicity (initState 0) 0 1 5 7
    "0x0000000000000000000000000000000000000000" 11 0).2.2
    rfl (by decide) rfl
  exact ⟨h.1, h.2.1, h.2.2 (by decide)⟩

/-- C6 counterexample: the claim says `lock` with amount 0 fails with an
`InvalidAmount` error, but the program's `ErrorCode` enum has no such
variant and `lock` performs no amount check at all: on an initialized
bridge a lock of amount 0 with a well-formed address and a succeeding
transfer SUCCEEDS and increments the nonce. -/
theorem C6_counterexample :
    step (initState 0)
        (.lockOp 1 0 "0x0000000000000000000000000000000000000000"
          (.ok ()) 0) =
      .ok ({ owner := 0, nonce := 1, paused := false,
             processed_nonces := [] },
           some (.lockEv 1 0 1
             "0x0000000000000000000000000000000000000000" 0)) := by
  decide

/-- C6 amended: `lock` and `burn` impose no positivity requirement on
`amount` and the program has no `InvalidAmount` error; a call with
`amount = 0` passes validation like any other amount and (when the
token call succeeds and the nonce does not overflow) succeeds,
incrementing the nonce. -/
theorem C6_no_amount_check (s : BridgeState) (u : Pubkey) (addr : String)
    (ts : Int) :
    s.paused = false → validEthAddr addr = true →
    s.nonce + 1 < U64LIMIT →
    lock s u 0 addr (.ok ()) ts =
      .ok ({ s with nonce := s.nonce + 1 },
           .lockEv u 0 (s.nonce + 1) addr ts) ∧
    burn s u 0 addr (.ok ()) =
      .ok ({ s with nonce := s.nonce + 1 },
           .burnEv u 0 (s.nonce + 1) addr) := by
  intro hp hv hb
  constructor
  · rw [lock_ok_iff]
    exact ⟨hp, hv, rfl, hb, rfl⟩
  · rw [burn_ok_iff]
    exact ⟨hp, hv, rfl, hb, rfl⟩

/-- Witness for the amended C6 on the initialized state. -/
theorem C6_no_amount_check_witness :
    lock (initState 0) 1 0 "0x0000000000000000000000000000000000000000"
        (.ok ()) 0 =
      .ok ({ owner := 0, nonce := 1, paused := false,
             processed_nonces := [] },
           .lockEv 1 0 1 "0x0000000000000000000000000000000000000000" 0) := by
  exact (C6_no_amount_check (initState 0) 1
    "0x0000000000000000000000000000000000000000" 0 rfl (by decide)
    (by norm_num [U64LIMIT, initState])).1

/-- C7: on an unpaused bridge, `lock` and `burn` fail with
`InvalidEthAddress` exactly when the recipient string does not start
with the two characters `0x` or does not have UTF-8 byte length 42
(hexadecimal-ness of the remaining characters is NOT checked), and they
do so for every adapter outcome — i.e. the address is validated before
any balance effect — leaving the state unchanged. -/
theorem C7_address_validation (s : BridgeState) (u : Pubkey) (a : Nat)
    (addr : String) (r : AdapterResult) (ts : Int) :
    s.paused = false →
    ((step s (.lockOp u a addr r ts) = .error (.code .InvalidEthAddress) ↔
        ¬(addr.data.take 2 = ['0', 'x'] ∧ addr.utf8ByteSize = 42)) ∧
     (step s (.burnOp u a addr r) = .error (.code .InvalidEthAddress) ↔
        ¬(addr.data.take 2 = ['0', 'x'] ∧ addr.utf8ByteSize = 42)) ∧
     (validEthAddr addr = false →
        apply s (.lockOp u a addr r ts) = s ∧
        apply s (.burnOp u a addr r) = s)) := by
  intro hp
  have key : validEthAddr addr = true ↔
      (addr.data.take 2 = ['0', 'x'] ∧ addr.utf8ByteSize = 42) := by
    simp [validEthAddr]
  have keyF : validEthAddr addr = false ↔
      ¬(addr.data.take 2 = ['0', 'x'] ∧ addr.utf8ByteSize = 42) := by
    rw [← key]
    cases validEthAddr addr <;> simp
  refine ⟨⟨fun h => ?_, fun h => ?_⟩, ⟨fun h => ?_, fun h => ?_⟩,
    fun hv => ?_⟩
  · rw [step_lock_err] at h
    by_cases hv : validEthAddr addr = true
    · exact absurd h (lock_valid_no_addr_err hv)
    · exact keyF.mp (Bool.not_eq_true _ ▸ hv)
  · rw [step_lock_err]
    exact lock_bad_addr u a r ts hp (keyF.mpr h)
  · rw [step_burn_err] at h
    by_cases hv : validEthAddr addr = true
    · exact absurd h (burn_valid_no_addr_err hv)
    · exact keyF.mp (Bool.not_eq_true _ ▸ hv)
  · rw [step_burn_err]
    exact burn_bad_addr u a r hp (keyF.mpr h)
  · have h1 := (step_lock_err s u a addr r ts _).mpr
      (lock_bad_addr u a r ts hp hv)
    have h2 := (step_burn_err s u a addr r _).mpr
      (burn_bad_addr u a r hp hv)
    exact ⟨apply_of_error h1, apply_of_error h2⟩

/-- Witness for C7: a 42-character `0x` string of non-hex characters
passes (the lock does not fail with `InvalidEthAddress` and in fact
succeeds), a short string fails even though the transfer would have
failed too (address checked first), and the failed state is unchanged. -/
theorem C7_address_validation_witness :
    ¬(step (initState 0)
        (.lockOp 1 5 "0xZZZZZZZZZZZZZZZZZZZZZZZZZZZZZZZZZZZZZZZZ"
          (.ok ()) 0) = .error (.code .InvalidEthAddress)) ∧
    step (initState 0) (.lockOp 1 5 "0x1234" (.error 3) 0) =
      .error (.code .InvalidEthAddress) ∧
    apply (initState 0) (.lockOp 1 5 "0x1234" (.error 3) 0) =
      initState 0 := by
  have h1 := C7_address_validation (initState 0) 1 5
    "0xZZZZZZZZZZZZZZZZZZZZZZZZZZZZZZZZZZZZZZZZ" (.ok ()) 0 rfl
  have h2 := C7_address_validation (initState 0) 1 5 "0x1234"
    (.error 3) 0 rfl
  refine ⟨fun hc => ?_, h2.1.mpr (by decide), (h2.2.2 (by decide)).1⟩
  exact absurd (h1.1.mp hc) (by decide)

/-- C8: the nonce never decreases over any operation, never leaves the
u64 range (no wrap modulo 2^64), and when it holds the maximum u64
value a further lock or burn aborts with an error instead of wrapping
(overflow behaviour modelled from the spec, see `incNonce`). -/
theorem C8_nonce_overflow (s : BridgeState) (op : Op) (u : Pubkey)
    (a : Nat) (addr : String) (r : AdapterResult) (ts : Int) :
    s.nonce ≤ (apply s op).nonce ∧
    (s.nonce < U64LIMIT → (apply s op).nonce < U64LIMIT) ∧
    (s.nonce = U64LIMIT - 1 →
      (step s (.lockOp u a addr r ts)).isOk = false ∧
      (step s (.burnOp u a addr r)).isOk = false) := by
  have hpos : 0 < U64LIMIT := by norm_num [U64LIMIT]
  refine ⟨?_, ?_, fun hmax => ⟨?_, ?_⟩⟩
  · rcases nonce_apply_cases s op with h | ⟨h, _⟩ <;> omega
  · intro hlt
    rcases nonce_apply_cases s op with h | ⟨h, hb⟩ <;> omega
  · rcases hstep : step s (.lockOp u a addr r ts) with e | ⟨s', ev⟩
    · rfl
    · have hs := step_ok_shape hstep
      omega
  · rcases hstep : step s (.burnOp u a addr r) with e | ⟨s', ev⟩
    · rfl
    · have hs := step_ok_shape hstep
      omega

/-- Witness for C8: at nonce `2^64 - 1`, a lock whose checks and
transfer all pass still fails. -/
theorem C8_nonce_overflow_witness :
    (step { owner := 0, nonce := U64LIMIT - 1, paused := false,
            processed_nonces := [] }
        (.lockOp 1 5 "0x0000000000000000000000000000000000000000"
          (.ok ()) 0)).isOk = false ∧
    ({ owner := 0, nonce := 3, paused := false,
       processed_nonces := [] } : BridgeState).nonce ≤
      (apply { owner := 0, nonce := 3, paused := false,
               processed_nonces := [] }
        (.lockOp 1 5 "0x0000000000000000000000000000000000000000"
          (.ok ()) 0)).nonce := by
  refine ⟨(C8_nonce_overflow
      { owner := 0, nonce := U64LIMIT - 1, paused := false,
        processed_nonces := [] }
      (.pauseOp 0) 1 5 "0x0000000000000000000000000000000000000000"
      (.ok ()) 0).2.2 rfl |>.1, ?_⟩
  exact (C8_nonce_overflow
    { owner := 0, nonce := 3, paused := false, processed_nonces := [] }
    (.lockOp 1 5 "0x0000000000000000000000000000000000000000" (.ok ()) 0)
    1 5 "0x0000000000000000000000000000000000000000" (.ok ()) 0).1

/-- C9: with no existing record, `initialize` creates the record with
`owner` the caller, `nonce = 0`, `paused = false` and an empty
processed-nonce list; with an existing record it fails with the
already-initialized error and the existing record — its owner in
particular — is untouched. -/
theorem C9_initialize_once (s : BridgeState) (c c' : Pubkey) :
    initBridge none c = .ok { owner := c, nonce := 0, paused := false,
                              processed_nonces := [] } ∧
    initBridge none c = .ok (initState c) ∧
    initBridge (some s) c' = .error .alreadyInitialized ∧
    initWorld (some s) c' = some s := by
  exact ⟨rfl, rfl, rfl, rfl⟩

/-- C10: frame property.  No operation changes `owner` (singly or over
a whole trace); a successful lock/burn changes only `nonce`; a
successful mint changes only `processed_nonces`, appending exactly its
nonce; pause/unpause change only `paused`. -/
theorem C10_frame_property (s s' : BridgeState) (op : Op)
    (ev : Option Event) (ops : List Op) :
    (apply s op).owner = s.owner ∧
    (run s ops).owner = s.owner ∧
    (step s op = .ok (s', ev) →
      match op with
      | .lockOp _ _ _ _ _ =>
          s'.owner = s.owner ∧ s'.paused = s.paused ∧
          s'.processed_nonces = s.processed_nonces
      | .burnOp _ _ _ _ =>
          s'.owner = s.owner ∧ s'.paused = s.paused ∧
          s'.processed_nonces = s.processed_nonces
      | .mintOp _ _ _ n _ =>
          s'.owner = s.owner ∧ s'.nonce = s.nonce ∧
          s'.paused = s.paused ∧
          s'.processed_nonces = s.processed_nonces ++ [n]
      | .pauseOp _ =>
          s'.owner = s.owner ∧ s'.nonce = s.nonce ∧
          s'.processed_nonces = s.processed_nonces
      | .unpauseOp _ =>
          s'.owner = s.owner ∧ s'.nonce = s.nonce ∧
          s'.processed_nonces = s.processed_nonces) := by
  refine ⟨owner_apply s op, owner_run s ops, fun h => ?_⟩
  have hs := step_ok_shape h
  cases op with
  | lockOp u a addr r ts =>
      obtain ⟨_, _, _, _, h5, _⟩ := hs
      subst h5
      exact ⟨rfl, rfl, rfl⟩
  | mintOp auth u a n r =>
      obtain ⟨_, _, _, _, _, h6, _⟩ := hs
      subst h6
      exact ⟨rfl, rfl, rfl, rfl⟩
  | burnOp u a addr r =>
      obtain ⟨_, _, _, _, h5, _⟩ := hs
      subst h5
      exact ⟨rfl, rfl, rfl⟩
  | pauseOp c =>
      obtain ⟨_, h2, _⟩ := hs
      subst h2
      exact ⟨rfl, rfl, rfl⟩
  | unpauseOp c =>
      obtain ⟨_, h2, _⟩ := hs
      subst h2
      exact ⟨rfl, rfl, rfl⟩

/-- Witness for C10: a successful concrete mint appends exactly its
nonce and leaves owner, nonce and paused unchanged. -/
theorem C10_frame_property_witness :
    ({ owner := 0, nonce := 0, paused := false,
       processed_nonces := [7] } : BridgeState).owner =
        (initState 0).owner ∧
    ({ owner := 0, nonce := 0, paused := false,
       processed_nonces := [7] } : BridgeState).nonce =
        (initState 0).nonce ∧
    ({ owner := 0, nonce := 0, paused := false,
       processed_nonces := [7] } : BridgeState).paused =
        (initState 0).paused ∧
    ({ owner := 0, nonce := 0, paused := false,
       processed_nonces := [7] } : BridgeState).processed_nonces =
        (initState 0).processed_nonces ++ [7] := by
  exact (C10_frame_property (initState 0)
    { owner := 0, nonce := 0, paused := false, processed_nonces := [7] }
    (.mintOp 0 1 5 7 (.ok ())) (some (.mintEv 1 5 7)) []).2.2 (by decide)

end SolanaBridge
